import Mathlib

/-
Verification of the `ctable` Go package (console table rendering) against its
natural-language specification.

The embedding below is a shallow translation of `ctable.go` (the final revision,
supporting multiline cells).  Go strings are modelled as Lean `String`s (valid
UTF-8); `utf8.RuneCountInString` is codepoint count; Go's byte-level string
slicing `s[:n]` is modelled at byte granularity, including the case where the
byte boundary splits a multi-byte codepoint (producing raw bytes in the
output).  `log.Fatal` (process abort) and runtime panics (index out of range,
failed type assertion) are modelled as explicit result constructors / `none`.
-/

set_option autoImplicit false

namespace CTable

/-- A Go string value (valid UTF-8, as produced by Go source literals). -/
abbrev GoStr := String

/-- utf8.RuneCountInString: number of Unicode codepoints of a valid string. -/
def runeCount (s : GoStr) : Nat := s.length

/-- len(s) for a Go string: its number of UTF-8 bytes. -/
def byteLen (s : GoStr) : Nat := s.utf8ByteSize

/-- One displayed unit of output text, as counted by Go's fmt width logic:
either a proper codepoint, or a single raw byte left over when a byte-level
slice cuts a multi-byte codepoint in half (Go renders such bytes as-is and
`fmt`/`utf8.RuneCountInString` count each invalid byte as one rune). -/
inductive GoUnit where
  | ch (c : Char)
  | raw (b : Nat)
deriving DecidableEq, Repr

/-- A rendered line (or fragment) of output. -/
abbrev GoLine := List GoUnit

/-- Lift a well-formed string into output units. -/
def ofStr (s : GoStr) : GoLine := s.data.map GoUnit.ch

/-- The UTF-8 encoding of one codepoint, as byte values. -/
def utf8Bytes (c : Char) : List Nat :=
  let v := c.toNat
  if v < 0x80 then [v]
  else if v < 0x800 then [0xC0 + v / 0x40, 0x80 + v % 0x40]
  else if v < 0x10000 then
    [0xE0 + v / 0x1000, 0x80 + (v / 0x40) % 0x40, 0x80 + v % 0x40]
  else
    [0xF0 + v / 0x40000, 0x80 + (v / 0x1000) % 0x40,
     0x80 + (v / 0x40) % 0x40, 0x80 + v % 0x40]

/-- Go's byte-level slice `s[:n]` of a valid string, producing output units.
Returns `none` exactly when `n` exceeds the byte length of `s`, which in Go is
an index-out-of-range panic.  When the byte boundary falls inside a multi-byte
codepoint, the result ends with the raw leading bytes of that codepoint. -/
def goByteSlice : Nat → List Char → Option GoLine
  | n, [] => if n = 0 then some [] else none
  | n, c :: rest =>
    if c.utf8Size ≤ n then (goByteSlice (n - c.utf8Size) rest).map (GoUnit.ch c :: ·)
    else some (((utf8Bytes c).take n).map GoUnit.raw)

/-- Column from ctable.go: display name, truncation threshold (Go int),
justification string, whether truncation has been triggered, and the running
maximum codepoint width (only ever assigned rune counts, hence `Nat`). -/
structure Column where
  Name : GoStr
  truncateAt : Int
  Justification : GoStr
  truncationRequired : Bool
  maxLength : Nat
deriving DecidableEq, Repr

/-- NewColumn from ctable.go. -/
def NewColumn (name : GoStr) (truncateAt : Int) : Column :=
  { Name := name
    truncateAt := truncateAt
    Justification := "left"
    truncationRequired := decide (0 < truncateAt ∧ (runeCount name : Int) > truncateAt)
    maxLength := runeCount name }

/-- A value passed to AddRow: Go's `interface{}`, which the code switches on.
`other` stands for any dynamic type that is neither `string` nor `[]string`
(the switch's default case). -/
inductive Cell where
  | str (s : GoStr)
  | strs (l : List GoStr)
  | other
deriving DecidableEq, Repr

/-- Table from ctable.go.  Physical rows are stored as lists of `interface{}`
cells, exactly as in the Go slice `[][]interface{}`. -/
structure Table where
  Columns : List Column
  ColumnCount : Nat
  Rows : List (List Cell)
  RowCount : Nat
deriving DecidableEq, Repr

/-- NewTable from ctable.go. -/
def NewTable (columns : List Column) : Table :=
  { Columns := columns
    ColumnCount := columns.length
    Rows := []
    RowCount := 0 }

/-- First statement of AddRow's per-string update: raise `maxLength` to the
value's rune count when the latter is larger. -/
def updMax (c : Column) (v : GoStr) : Column :=
  if c.maxLength < runeCount v then { c with maxLength := runeCount v } else c

/-- Second statement of AddRow's per-string update: set `truncationRequired`
when `truncateAt > 0 && maxLength > truncateAt`. -/
def updFlag (c : Column) : Column :=
  if 0 < c.truncateAt ∧ (c.maxLength : Int) > c.truncateAt then
    { c with truncationRequired := true }
  else c

/-- The per-string width/truncation update of AddRow's first loop. -/
def updColumn (c : Column) (v : GoStr) : Column := updFlag (updMax c v)

/-- The `[]string` case of AddRow's first loop: fold `updColumn` over the
elements in order. -/
def updColumnML (c : Column) (l : List GoStr) : Column := l.foldl updColumn c

/-- Outcome of AddRow's first loop (width updates over `fields[i]` against
`ct.Columns[i]`): completes with updated columns, hits the switch default
(`log.Fatal`) with the column state mutated so far, or indexes `ct.Columns`
out of range (runtime panic, possible only when the column list is shorter
than the field list). -/
inductive Phase1Out where
  | done (cols : List Column)
  | fatalAt (cols : List Column)
  | oob
deriving DecidableEq, Repr

/-- AddRow's first loop, walking fields against columns in lockstep.  Columns
preceding a `default`-case fatal keep the updates already applied to them,
exactly as the in-place Go mutation does. -/
def widthLoop : List Column → List Cell → Phase1Out
  | cols, [] => .done cols
  | [], _ :: _ => .oob
  | c :: cs, f :: fs =>
    match f with
    | .str v =>
      match widthLoop cs fs with
      | .done cs2 => .done (updColumn c v :: cs2)
      | .fatalAt cs2 => .fatalAt (updColumn c v :: cs2)
      | .oob => .oob
    | .strs l =>
      match widthLoop cs fs with
      | .done cs2 => .done (updColumnML c l :: cs2)
      | .fatalAt cs2 => .fatalAt (updColumnML c l :: cs2)
      | .oob => .oob
    | .other => .fatalAt (c :: cs)

/-- rowState.hasMultilineValue: does any field hold a `[]string`? -/
def hasML (fields : List Cell) : Bool :=
  fields.any fun f => match f with | .strs _ => true | _ => false

/-- longestMulti: the maximum sequence length among the multiline fields. -/
def longestMulti (fields : List Cell) : Nat :=
  fields.foldl (fun acc f => match f with | .strs l => max acc l.length | _ => acc) 0

/-- One iteration of AddRow's expansion loop (physical row `x`): multiline
fields contribute element `x` — with NO bounds check in the Go source
(`fields[fi].([]string)[x]`), so a sequence shorter than `longestMulti`
makes the whole call panic (`none`); non-multiline fields contribute their
cell verbatim on row 0 and the empty string afterwards. -/
def buildTemp (fields : List Cell) (x : Nat) : Option (List Cell) :=
  fields.mapM fun f =>
    match f with
    | .strs l => (l.get? x).map Cell.str
    | f => if x = 0 then some f else some (Cell.str "")

/-- Result of an AddRow call.  `fatal t` models `log.Fatal` (the process
exits; `t` is the table's memory state at that instant — `log.Fatal` performs
no rollback).  `panicked` models a runtime panic (index out of range). -/
inductive AddRowResult where
  | ok (t : Table)
  | fatal (t : Table)
  | panicked
deriving DecidableEq, Repr

/-- AddRow from ctable.go (the multiline-capable version). -/
def AddRow (ct : Table) (fields : List Cell) : AddRowResult :=
  if fields.length ≠ ct.ColumnCount then .fatal ct
  else
    match widthLoop ct.Columns fields with
    | .oob => .panicked
    | .fatalAt cols2 => .fatal { ct with Columns := cols2 }
    | .done cols2 =>
      let ct2 := { ct with Columns := cols2 }
      if hasML fields then
        match (List.range (longestMulti fields)).mapM (buildTemp fields) with
        | none => .panicked
        | some newRows => .ok { ct2 with Rows := ct2.Rows ++ newRows }
      else .ok { ct2 with Rows := ct2.Rows ++ [fields] }

/-- fmt.Sprintf with format `%-Nv` (left) or `%Nv` (right) applied to text:
pad with spaces up to width `w`, where width is counted in runes (fmt's width
unit); text at or above the width is left unpadded. -/
def padFmt (left : Bool) (w : Nat) (line : GoLine) : GoLine :=
  if left then line ++ List.replicate (w - line.length) (GoUnit.ch ' ')
  else List.replicate (w - line.length) (GoUnit.ch ' ') ++ line

/-- The width written into Display's format string: `truncateAt+3` when the
column has triggered truncation (space for the "..." marker), else the
running `maxLength`.  (`truncateAt > 0` whenever `truncationRequired` is set
by NewColumn/AddRow, so the `Int.toNat` cast is lossless there.) -/
def fieldWidth (col : Column) : Nat :=
  if col.truncationRequired then (col.truncateAt + 3).toNat else col.maxLength

/-- Display's per-value truncation step: when the column has triggered
truncation and the value's rune count exceeds the threshold, take the first
`truncateAt` BYTES of the value (`fieldData[:col.truncateAt]` is a byte
slice in Go) and append "...". `none` is a slice-bounds panic (negative
index, or index past the end — both unreachable under the rune-count guard). -/
def truncData (col : Column) (s : GoStr) : Option GoLine :=
  if col.truncationRequired ∧ (runeCount s : Int) > col.truncateAt then
    if col.truncateAt < 0 then none
    else (goByteSlice col.truncateAt.toNat s.data).map (· ++ ofStr "...")
  else some (ofStr s)

/-- Display's rendering of one data field: the stored cell must be a single
string (`row[i].(string)` — a non-string cell is a type-assertion panic),
truncated per `truncData`, then padded; left-justified exactly when the
column's Justification string equals "left". -/
def renderCell (col : Column) (cell : Cell) : Option GoLine :=
  match cell with
  | .str s => (truncData col s).map (padFmt (col.Justification == "left") (fieldWidth col))
  | _ => none

/-- Display's inner loop over one stored row: iterate the columns, indexing
the row (`row[i]` — `none` if the row is shorter than the column list). -/
def renderRow : List Column → List Cell → Option (List GoLine)
  | [], _ => some []
  | _ :: _, [] => none
  | c :: cs, x :: xs => do
    let f ← renderCell c x
    let rest ← renderRow cs xs
    pure (f :: rest)

/-- Join rendered fields with the single-space separator (a space is
prepended to every field but the first). -/
def joinSp (fs : List GoLine) : GoLine := List.intercalate [GoUnit.ch ' '] fs

/-- Display's header field for one column: always left-justified ("%-" in
both branches of the Go source); when truncation is active the column name
is byte-sliced to `truncateAt` and given "..." only if the name's rune count
exceeds the threshold, and the width is `truncateAt+3`; otherwise the name
is padded to `maxLength`. -/
def headerField (col : Column) : Option GoLine :=
  if col.truncationRequired then
    if (runeCount col.Name : Int) > col.truncateAt then
      if col.truncateAt < 0 then none
      else (goByteSlice col.truncateAt.toNat col.Name.data).map
        (fun t => padFmt true (col.truncateAt + 3).toNat (t ++ ofStr "..."))
    else some (padFmt true (col.truncateAt + 3).toNat (ofStr col.Name))
  else some (padFmt true col.maxLength (ofStr col.Name))

/-- Display's header separator segment for one column: a run of '='
characters of the field's display width (strings.Repeat panics on a negative
count, hence the guard). -/
def sepField (col : Column) : Option GoLine :=
  if col.truncationRequired then
    if col.truncateAt + 3 < 0 then none
    else some (List.replicate (col.truncateAt + 3).toNat (GoUnit.ch '='))
  else some (List.replicate col.maxLength (GoUnit.ch '='))

/-- Display from ctable.go, as the ordered list of printed lines.  The data
rows are processed first (as in the source), then the header and separator
lines are emitted before them when `showHeaders` is set.  `none` models a
runtime panic anywhere in the pipeline. -/
def Display (ct : Table) (showHeaders : Bool) : Option (List GoLine) := do
  let dataFields ← ct.Rows.mapM (renderRow ct.Columns)
  let dataLines := dataFields.map joinSp
  if showHeaders then
    let hfs ← ct.Columns.mapM headerField
    let seps ← ct.Columns.mapM sepField
    pure (joinSp hfs :: joinSp seps :: dataLines)
  else
    pure dataLines

/-- Display together with the table state after the call.  The Go method body
contains no assignment to any field of `ct` (it only reads `ct.Columns` and
`ct.Rows` and builds local strings), so the post-state is the input state. -/
def DisplayRun (ct : Table) (showHeaders : Bool) : Option (List GoLine) × Table :=
  (Display ct showHeaders, ct)

/-! ### Derived notions and invariants -/

/-- The effective field display width of a column as used by Display:
`truncateAt + 3` once truncation has been triggered, else the running
maximum observed width. -/
def effWidth (c : Column) : Int :=
  if c.truncationRequired then c.truncateAt + 3 else (c.maxLength : Int)

/-- Column-state invariant maintained by NewColumn and AddRow: while the
truncation flag is still off, either truncation is disabled for the column
or the observed width has not yet passed the threshold. -/
def ColInv (c : Column) : Prop :=
  c.truncationRequired = false → (c.truncateAt ≤ 0 ∨ (c.maxLength : Int) ≤ c.truncateAt)

instance (c : Column) : Decidable (ColInv c) := by unfold ColInv; infer_instance

/-- Relation between a column's state before and after one AddRow width
update: the observed width and the truncation flag only grow, and (under the
column invariant) the effective display width only grows and the invariant
is maintained. -/
def colStep (c c2 : Column) : Prop :=
  c.maxLength ≤ c2.maxLength ∧
  (c.truncationRequired = true → c2.truncationRequired = true) ∧
  (ColInv c → effWidth c ≤ effWidth c2 ∧ ColInv c2)

theorem colStep_refl (c : Column) : colStep c c :=
  ⟨le_refl _, fun h => h, fun hc => ⟨le_refl _, hc⟩⟩

theorem colStep_trans {a b c : Column} (h1 : colStep a b) (h2 : colStep b c) :
    colStep a c :=
  ⟨le_trans h1.1 h2.1, fun h => h2.2.1 (h1.2.1 h), fun hc =>
    ⟨le_trans (h1.2.2 hc).1 (h2.2.2 (h1.2.2 hc).2).1, (h2.2.2 (h1.2.2 hc).2).2⟩⟩

theorem updMax_maxLength_le (c : Column) (v : GoStr) :
    c.maxLength ≤ (updMax c v).maxLength := by
  unfold updMax
  split
  · next h => simpa using le_of_lt h
  · exact le_refl _

theorem updMax_truncateAt (c : Column) (v : GoStr) :
    (updMax c v).truncateAt = c.truncateAt := by
  unfold updMax; split <;> rfl

theorem updMax_flag (c : Column) (v : GoStr) :
    (updMax c v).truncationRequired = c.truncationRequired := by
  unfold updMax; split <;> rfl

theorem updFlag_maxLength (c : Column) : (updFlag c).maxLength = c.maxLength := by
  unfold updFlag; split <;> rfl

theorem updFlag_truncateAt (c : Column) : (updFlag c).truncateAt = c.truncateAt := by
  unfold updFlag; split <;> rfl

theorem updFlag_flag_eq (c : Column) :
    (updFlag c).truncationRequired =
      (c.truncationRequired || decide (0 < c.truncateAt ∧ (c.maxLength : Int) > c.truncateAt)) := by
  unfold updFlag
  split
  · next h => simp [h]
  · next h => simp [h]

theorem updFlag_colInv (c : Column) : ColInv (updFlag c) := by
  unfold updFlag ColInv
  split
  · next h => intro hcontra; simp at hcontra
  · next h => intro _; omega

theorem updColumn_truncateAt (c : Column) (v : GoStr) :
    (updColumn c v).truncateAt = c.truncateAt := by
  unfold updColumn; rw [updFlag_truncateAt, updMax_truncateAt]

theorem updColumn_maxLength (c : Column) (v : GoStr) :
    (updColumn c v).maxLength = (updMax c v).maxLength := by
  unfold updColumn; rw [updFlag_maxLength]

theorem updColumn_flag_eq (c : Column) (v : GoStr) :
    (updColumn c v).truncationRequired =
      (c.truncationRequired ||
        decide (0 < c.truncateAt ∧ ((updMax c v).maxLength : Int) > c.truncateAt)) := by
  unfold updColumn
  rw [updFlag_flag_eq, updMax_flag, updMax_truncateAt]

theorem updColumn_flag_mono (c : Column) (v : GoStr) (h : c.truncationRequired = true) :
    (updColumn c v).truncationRequired = true := by
  rw [updColumn_flag_eq, h, Bool.true_or]

theorem updColumn_colInv (c : Column) (v : GoStr) : ColInv (updColumn c v) :=
  updFlag_colInv (updMax c v)

theorem effWidth_updColumn_le (c : Column) (v : GoStr) (hc : ColInv c) :
    effWidth c ≤ effWidth (updColumn c v) := by
  unfold effWidth
  cases hf : c.truncationRequired with
  | true =>
    rw [updColumn_flag_mono c v hf, updColumn_truncateAt]
    simp
  | false =>
    cases hf2 : (updColumn c v).truncationRequired with
    | true =>
      rw [updColumn_flag_eq, hf, Bool.false_or, decide_eq_true_eq] at hf2
      rw [updColumn_truncateAt]
      rcases hc hf with ht | hm
      · exact absurd hf2.1 (by omega)
      · simp only [if_true, if_false, Bool.false_eq_true]
        omega
    | false =>
      simp only [Bool.false_eq_true, if_false]
      rw [updColumn_maxLength]
      exact_mod_cast updMax_maxLength_le c v

theorem colStep_updColumn (c : Column) (v : GoStr) : colStep c (updColumn c v) := by
  refine ⟨?_, updColumn_flag_mono c v, fun hc => ⟨effWidth_updColumn_le c v hc, updColumn_colInv c v⟩⟩
  calc c.maxLength ≤ (updMax c v).maxLength := updMax_maxLength_le c v
    _ = (updColumn c v).maxLength := (updColumn_maxLength c v).symm

theorem colStep_updColumnML (c : Column) (l : List GoStr) :
    colStep c (updColumnML c l) := by
  induction l generalizing c with
  | nil => exact colStep_refl c
  | cons s rest ih =>
    have h1 : updColumnML c (s :: rest) = updColumnML (updColumn c s) rest := rfl
    rw [h1]
    exact colStep_trans (colStep_updColumn c s) (ih (updColumn c s))

/-- The width loop over an exhausted field list leaves the columns as they
are. -/
theorem widthLoop_nil (cols : List Column) : widthLoop cols [] = .done cols := by
  cases cols <;> rfl

/-- Completion of AddRow's width loop relates each input column to the
corresponding output column by `colStep`. -/
theorem widthLoop_done_rel :
    ∀ (fields : List Cell) (cols cols2 : List Column),
      widthLoop cols fields = .done cols2 → List.Forall₂ colStep cols cols2 := by
  intro fields
  induction fields with
  | nil =>
    intro cols cols2 h
    rw [widthLoop_nil] at h
    injection h with h
    subst h
    exact List.forall₂_same.2 fun c _ => colStep_refl c
  | cons f fs ih =>
    intro cols cols2 h
    cases cols with
    | nil => exact Phase1Out.noConfusion h
    | cons c cs =>
      cases f with
      | str v =>
        revert h
        unfold widthLoop
        cases hw : widthLoop cs fs with
        | done cs2 =>
          intro h
          injection h with h
          subst h
          exact List.Forall₂.cons (colStep_updColumn c v) (ih cs cs2 hw)
        | fatalAt cs2 => intro h; exact Phase1Out.noConfusion h
        | oob => intro h; exact Phase1Out.noConfusion h
      | strs l =>
        revert h
        unfold widthLoop
        cases hw : widthLoop cs fs with
        | done cs2 =>
          intro h
          injection h with h
          subst h
          exact List.Forall₂.cons (colStep_updColumnML c l) (ih cs cs2 hw)
        | fatalAt cs2 => intro h; exact Phase1Out.noConfusion h
        | oob => intro h; exact Phase1Out.noConfusion h
      | other => exact Phase1Out.noConfusion h

/-- Extract a pointwise fact from a `Forall₂` relation at one index. -/
theorem forall₂_get?_rel {R : Column → Column → Prop} :
    ∀ {l1 l2 : List Column} {i : Nat} {c c2 : Column},
      List.Forall₂ R l1 l2 → l1.get? i = some c → l2.get? i = some c2 → R c c2 := by
  intro l1 l2 i c c2 hF
  induction hF generalizing i with
  | nil => intro h1 _; exact Option.noConfusion h1
  | cons hR hF2 ih =>
    cases i with
    | zero =>
      intro h1 h2
      injection h1 with h1
      injection h2 with h2
      subst h1; subst h2
      exact hR
    | succ j => exact ih

/-- If AddRow returns normally, the width loop completed and produced the
result's column list, the row/column counters are untouched, and the stored
rows grew by appending. -/
theorem addRow_ok_inv {ct : Table} {fields : List Cell} {t2 : Table}
    (h : AddRow ct fields = .ok t2) :
    widthLoop ct.Columns fields = .done t2.Columns ∧
      t2.RowCount = ct.RowCount ∧ t2.ColumnCount = ct.ColumnCount ∧
      ∃ newRows, t2.Rows = ct.Rows ++ newRows := by
  unfold AddRow at h
  split at h
  · exact AddRowResult.noConfusion h
  · revert h
    cases hw : widthLoop ct.Columns fields with
    | oob => intro h; exact AddRowResult.noConfusion h
    | fatalAt cols2 => intro h; exact AddRowResult.noConfusion h
    | done cols2 =>
      intro h
      simp only at h
      split at h
      · revert h
        cases hm : (List.range (longestMulti fields)).mapM (buildTemp fields) with
        | none => intro h; exact AddRowResult.noConfusion h
        | some newRows =>
          intro h
          injection h with h
          subst h
          exact ⟨rfl, rfl, rfl, newRows, rfl⟩
      · injection h with h
        subst h
        exact ⟨rfl, rfl, rfl, [fields], rfl⟩

/-- If AddRow hits `log.Fatal`, the row store and the counters of the state
at exit are those of the input table (only column width/flag state may have
been mutated). -/
theorem addRow_fatal_inv {ct : Table} {fields : List Cell} {t2 : Table}
    (h : AddRow ct fields = .fatal t2) :
    t2.Rows = ct.Rows ∧ t2.RowCount = ct.RowCount ∧ t2.ColumnCount = ct.ColumnCount := by
  unfold AddRow at h
  split at h
  · injection h with h
    subst h
    exact ⟨rfl, rfl, rfl⟩
  · revert h
    cases hw : widthLoop ct.Columns fields with
    | oob => intro h; exact AddRowResult.noConfusion h
    | fatalAt cols2 =>
      intro h
      injection h with h
      subst h
      exact ⟨rfl, rfl, rfl⟩
    | done cols2 =>
      intro h
      simp only at h
      split at h
      · revert h
        cases hm : (List.range (longestMulti fields)).mapM (buildTemp fields) with
        | none => intro h; exact AddRowResult.noConfusion h
        | some newRows => intro h; exact AddRowResult.noConfusion h
      · exact AddRowResult.noConfusion h

/-- A field list containing a value of invalid dynamic type makes the width
loop hit the switch default (`log.Fatal`), provided the loop does not run
out of columns first. -/
theorem widthLoop_fatal_of_mem :
    ∀ (fields : List Cell) (cols : List Column),
      Cell.other ∈ fields → fields.length ≤ cols.length →
      ∃ cols2, widthLoop cols fields = .fatalAt cols2 := by
  intro fields
  induction fields with
  | nil => intro cols hmem _; exact absurd hmem (List.not_mem_nil _)
  | cons f fs ih =>
    intro cols hmem hlen
    cases cols with
    | nil => simp at hlen
    | cons c cs =>
      cases f with
      | str v =>
        have hmem2 : Cell.other ∈ fs := by
          rcases List.mem_cons.1 hmem with h | h
          · exact Cell.noConfusion h
          · exact h
        obtain ⟨cols2, hw⟩ := ih cs hmem2 (by simpa using hlen)
        exact ⟨updColumn c v :: cols2, by unfold widthLoop; rw [hw]⟩
      | strs l =>
        have hmem2 : Cell.other ∈ fs := by
          rcases List.mem_cons.1 hmem with h | h
          · exact Cell.noConfusion h
          · exact h
        obtain ⟨cols2, hw⟩ := ih cs hmem2 (by simpa using hlen)
        exact ⟨updColumnML c l :: cols2, by unfold widthLoop; rw [hw]⟩
      | other => exact ⟨c :: cs, rfl⟩

/-! ### Rendering lemmas -/

theorem ofStr_length (s : GoStr) : (ofStr s).length = runeCount s := by
  unfold ofStr runeCount
  rw [List.length_map]
  rfl

/-- Unfolding of `renderCell` on a single-string cell. -/
theorem renderCell_str (col : Column) (s : GoStr) :
    renderCell col (Cell.str s) =
      (truncData col s).map (padFmt (col.Justification == "left") (fieldWidth col)) := rfl

theorem padFmt_length (b : Bool) (w : Nat) (line : GoLine) (h : line.length ≤ w) :
    (padFmt b w line).length = w := by
  cases b
  · simp only [padFmt, Bool.false_eq_true, if_false, List.length_append,
      List.length_replicate]
    omega
  · simp only [padFmt, if_true, List.length_append, List.length_replicate]
    omega

/-- Byte-slicing within the byte range succeeds and yields at most `n`
output units (every unit costs at least one byte). -/
theorem goByteSlice_some_of_le :
    ∀ (chars : List Char) (n : Nat), n ≤ chars.length →
      ∃ line, goByteSlice n chars = some line ∧ line.length ≤ n := by
  intro chars
  induction chars with
  | nil =>
    intro n hn
    have h0 : n = 0 := Nat.le_zero.1 hn
    subst h0
    exact ⟨[], rfl, le_refl _⟩
  | cons c rest ih =>
    intro n hn
    by_cases hs : c.utf8Size ≤ n
    · have h1 : 0 < c.utf8Size := c.utf8Size_pos
      obtain ⟨line, hl1, hl2⟩ := ih (n - c.utf8Size) (by simp at hn; omega)
      refine ⟨GoUnit.ch c :: line, ?_, ?_⟩
      · unfold goByteSlice
        rw [if_pos hs, hl1]
        rfl
      · simp only [List.length_cons]
        omega
    · refine ⟨((utf8Bytes c).take n).map GoUnit.raw, ?_, ?_⟩
      · unfold goByteSlice
        rw [if_neg hs]
      · simp [List.length_take]

/-! ### Claim theorems -/

/-- Table with two non-truncating columns, used for the C1 failing input. -/
def tblC1 : Table := NewTable [NewColumn "A" 0, NewColumn "B" 0]

/-- C1 (code_bug evaluation): the spec's expansion rule says a multiline cell
shorter than the row's maximum sequence length `N` contributes empty strings
for its missing indices.  The code instead indexes the shorter slice out of
range (`fields[fi].([]string)[x]` at ctable.go:170 has no bounds check) and
panics: here `N = 3` and the first cell has length 2, so ingesting the row
aborts and appends no physical row at all, instead of producing the three
physical rows the specification describes. -/
theorem C1_unequal_multiline_panics :
    AddRow tblC1 [Cell.strs ["a", "b"], Cell.strs ["x", "y", "z"]] = .panicked := by
  decide

/-- Table with the two columns of the spec's scenario 5, used for the C2
failing input. -/
def tblC2 : Table := NewTable [NewColumn "Tags" 0, NewColumn "Notes" 0]

/-- C2 (code_bug evaluation): the spec claims AddRow and Display cannot fail
on well-formed input, and in particular that a row mixing multiline
sequences of different lengths succeeds.  This well-formed row (cell count
matches the column count, every cell a string sequence) makes AddRow's
expansion loop index the two-element sequence at position 2 and panic. -/
theorem C2_mixed_length_multiline_not_total :
    AddRow tblC2 [Cell.strs ["red", "blue"], Cell.strs ["x", "y", "z"]] = .panicked := by
  decide

/-- One column with truncation threshold 2, used for the C3 failing input. -/
def tblC3 : Table := NewTable [NewColumn "C" 2]

/-- The table state after adding the row `("ααα")` to `tblC3`: the
three-codepoint value raises `maxLength` to 3 and triggers truncation. -/
def tblC3r : Table :=
  { Columns := [{ Name := "C", truncateAt := 2, Justification := "left",
                  truncationRequired := true, maxLength := 3 }]
    ColumnCount := 1
    Rows := [[Cell.str "ααα"]]
    RowCount := 0 }

/-- C3 (code_bug evaluation): the spec says a too-long value is clipped to
its first `truncationThreshold` CODEPOINTS before "..." is appended, but
`fieldData[:col.truncateAt]` at ctable.go:220 slices BYTES.  The value
"ααα" (3 codepoints, 6 bytes) with threshold 2 renders as "α..." — the
first 2 bytes are exactly one two-byte codepoint — followed by one pad
space, rather than the "αα..." the claim requires. -/
theorem C3_truncation_clips_bytes_not_codepoints :
    AddRow tblC3 [Cell.str "ααα"] = .ok tblC3r ∧
      Display tblC3r false =
        some [[GoUnit.ch 'α', GoUnit.ch '.', GoUnit.ch '.', GoUnit.ch '.', GoUnit.ch ' ']] ∧
      ([GoUnit.ch 'α', GoUnit.ch '.', GoUnit.ch '.', GoUnit.ch '.', GoUnit.ch ' '] : GoLine) ≠
        ofStr "αα..." := by
  refine ⟨by decide, by decide, by decide⟩

/-- A column whose 4-codepoint name triggered truncation (threshold 2) at
construction, after also observing the 1-codepoint value "x". -/
def colC4 : Column :=
  { Name := "abcd", truncateAt := 2, Justification := "left",
    truncationRequired := true, maxLength := 4 }

/-- One column built as `NewColumn "abcd" 2`, used for the C4 counterexample. -/
def tblC4 : Table := NewTable [NewColumn "abcd" 2]

/-- The table state after adding the row `("x")` to `tblC4`. -/
def tblC4r : Table :=
  { Columns := [colC4], ColumnCount := 1, Rows := [[Cell.str "x"]], RowCount := 0 }

/-- C4 (counterexample): with truncation already active (threshold 2, forced
by the column name "abcd"), the later, shorter value "x" is rendered as
"x    " — padded to the width `threshold + 3` but WITHOUT being "truncated
to truncationThreshold codepoints plus \x22...\x22" as the claim states: the
rendered line differs from the claim's "x... " (clip plus marker plus pad). -/
theorem C4_short_value_not_marked :
    AddRow tblC4 [Cell.str "x"] = .ok tblC4r ∧
      Display tblC4r false = some [ofStr "x    "] ∧
      (ofStr "x    " : GoLine) ≠ ofStr "x... " := by
  refine ⟨by decide, by decide, by decide⟩

/-- C4 (amended): once a column's truncation flag is set, every rendered
value — and the rendered header name — occupies exactly `truncateAt + 3`
display units, the stable field width; but a value (or name) whose
codepoint count does not exceed the threshold is rendered unclipped and
unmarked, merely padded to that width. -/
theorem C4_truncation_stable_width (col : Column) (s : GoStr)
    (h1 : col.truncationRequired = true) (h2 : 0 ≤ col.truncateAt) :
    (∃ line, renderCell col (Cell.str s) = some line ∧
      line.length = (col.truncateAt + 3).toNat ∧
      ((runeCount s : Int) ≤ col.truncateAt →
        line = padFmt (col.Justification == "left") (col.truncateAt + 3).toNat (ofStr s))) ∧
    (∃ hline, headerField col = some hline ∧
      hline.length = (col.truncateAt + 3).toNat ∧
      ((runeCount col.Name : Int) ≤ col.truncateAt →
        hline = padFmt true (col.truncateAt + 3).toNat (ofStr col.Name))) := by
  have hw : fieldWidth col = (col.truncateAt + 3).toNat := by
    unfold fieldWidth
    simp [h1]
  constructor
  · by_cases hgt : (runeCount s : Int) > col.truncateAt
    · have hrc : runeCount s = s.data.length := rfl
      obtain ⟨clip, hc1, hc2⟩ :=
        goByteSlice_some_of_le s.data col.truncateAt.toNat (by omega)
      have htr : truncData col s = some (clip ++ ofStr "...") := by
        unfold truncData
        rw [if_pos ⟨by simp [h1], hgt⟩, if_neg (by omega), hc1]
        rfl
      refine ⟨padFmt (col.Justification == "left") (fieldWidth col) (clip ++ ofStr "..."),
        ?_, ?_, ?_⟩
      · rw [renderCell_str, htr]
        rfl
      · rw [hw]
        apply padFmt_length
        have h3 : (ofStr "...").length = 3 := rfl
        rw [List.length_append, h3]
        omega
      · intro hle
        exact absurd hgt (by omega)
    · have htr : truncData col s = some (ofStr s) := by
        unfold truncData
        rw [if_neg]
        intro hcontra
        exact hgt hcontra.2
      refine ⟨padFmt (col.Justification == "left") (fieldWidth col) (ofStr s), ?_, ?_, ?_⟩
      · rw [renderCell_str, htr]
        rfl
      · rw [hw]
        apply padFmt_length
        rw [ofStr_length]
        omega
      · intro _
        rw [hw]
  · by_cases hgt : (runeCount col.Name : Int) > col.truncateAt
    · have hrc : runeCount col.Name = col.Name.data.length := rfl
      obtain ⟨clip, hc1, hc2⟩ :=
        goByteSlice_some_of_le col.Name.data col.truncateAt.toNat (by omega)
      have hh : headerField col =
          some (padFmt true (col.truncateAt + 3).toNat (clip ++ ofStr "...")) := by
        unfold headerField
        rw [if_pos h1, if_pos hgt, if_neg (by omega), hc1]
        rfl
      refine ⟨padFmt true (col.truncateAt + 3).toNat (clip ++ ofStr "..."), hh, ?_, ?_⟩
      · apply padFmt_length
        have h3 : (ofStr "...").length = 3 := rfl
        rw [List.length_append, h3]
        omega
      · intro hle
        exact absurd hgt (by omega)
    · have hh : headerField col =
          some (padFmt true (col.truncateAt + 3).toNat (ofStr col.Name)) := by
        unfold headerField
        rw [if_pos h1, if_neg hgt]
      refine ⟨padFmt true (col.truncateAt + 3).toNat (ofStr col.Name), hh, ?_, fun _ => rfl⟩
      apply padFmt_length
      rw [ofStr_length]
      omega

/-- Witness for C4_truncation_stable_width at the concrete column `colC4`
(name "abcd", threshold 2, truncation active) and the short value "x". -/
theorem C4_truncation_stable_width_witness :
    (∃ line, renderCell colC4 (Cell.str "x") = some line ∧
      line.length = (colC4.truncateAt + 3).toNat ∧
      ((runeCount "x" : Int) ≤ colC4.truncateAt →
        line = padFmt (colC4.Justification == "left") (colC4.truncateAt + 3).toNat (ofStr "x"))) ∧
    (∃ hline, headerField colC4 = some hline ∧
      hline.length = (colC4.truncateAt + 3).toNat ∧
      ((runeCount colC4.Name : Int) ≤ colC4.truncateAt →
        hline = padFmt true (colC4.truncateAt + 3).toNat (ofStr colC4.Name))) :=
  C4_truncation_stable_width colC4 "x" (by decide) (by decide)

/-- C5: an AddRow call whose field count differs from the table's column
count exits fatally (`log.Fatal`) with the table state — columns, rows and
counters — exactly as it was: no row is appended and nothing is mutated,
because the check precedes every update in the source. -/
theorem C5_count_mismatch_fatal_unchanged (ct : Table) (fields : List Cell)
    (h : fields.length ≠ ct.ColumnCount) : AddRow ct fields = .fatal ct := by
  unfold AddRow
  rw [if_pos h]

/-- Witness for C5_count_mismatch_fatal_unchanged: one field against a
two-column table. -/
theorem C5_count_mismatch_witness :
    AddRow (NewTable [NewColumn "A" 0, NewColumn "B" 0]) [Cell.str "x"] =
      .fatal (NewTable [NewColumn "A" 0, NewColumn "B" 0]) :=
  C5_count_mismatch_fatal_unchanged _ _ (by decide)

/-- Two fresh columns, used for the C6 failing input. -/
def tblC6 : Table := NewTable [NewColumn "A" 0, NewColumn "B" 0]

/-- The state carried by the fatal exit of `AddRow tblC6 ["hello", other]`:
column "A" — which precedes the invalid cell — has already had its
`maxLength` raised from 1 to 5 when `log.Fatal` fires on the second cell. -/
def tblC6x : Table :=
  { Columns := [{ Name := "A", truncateAt := 0, Justification := "left",
                  truncationRequired := false, maxLength := 5 },
                NewColumn "B" 0]
    ColumnCount := 2
    Rows := []
    RowCount := 0 }

/-- C6 (counterexample): the claim says an invalid cell leaves no column's
width state changed, including columns preceding the invalid cell.  In the
code the width loop mutates `ct.Columns[i]` in place BEFORE reaching the
invalid cell's `log.Fatal`: the state at the fatal exit has column "A"'s
`maxLength` updated to 5, so it differs from the input table. -/
theorem C6_preceding_column_updated :
    AddRow tblC6 [Cell.str "hello", Cell.other] = .fatal tblC6x ∧ tblC6x ≠ tblC6 := by
  refine ⟨by decide, by decide⟩

/-- C6 (amended): an AddRow call containing an invalid cell halts with a
fatal usage error and appends no row — the row store at the fatal exit is
the input row store — though columns preceding the invalid cell may already
carry updated width state (unobservable in Go only because `log.Fatal`
terminates the process). -/
theorem C6_invalid_cell_fatal_no_row (ct : Table) (fields : List Cell)
    (hmem : Cell.other ∈ fields) (hlen : fields.length ≤ ct.Columns.length) :
    ∃ t2, AddRow ct fields = .fatal t2 ∧ t2.Rows = ct.Rows := by
  by_cases h : fields.length ≠ ct.ColumnCount
  · exact ⟨ct, by unfold AddRow; rw [if_pos h], rfl⟩
  · obtain ⟨cols2, hw⟩ := widthLoop_fatal_of_mem fields ct.Columns hmem hlen
    refine ⟨{ ct with Columns := cols2 }, ?_, rfl⟩
    unfold AddRow
    rw [if_neg h, hw]

/-- Witness for C6_invalid_cell_fatal_no_row at the concrete C6 input. -/
theorem C6_invalid_cell_witness :
    ∃ t2, AddRow tblC6 [Cell.str "hello", Cell.other] = .fatal t2 ∧ t2.Rows = tblC6.Rows :=
  C6_invalid_cell_fatal_no_row tblC6 [Cell.str "hello", Cell.other] (by decide) (by decide)

/-- C7: a successful AddRow call moves every column state forward
monotonically: the observed maximum width never decreases, the truncation
flag never resets, and — given the column invariant, which NewColumn
establishes and every update re-establishes — the effective field display
width (`truncateAt + 3` when truncating, else `maxLength`) never decreases;
the invariant holds again afterwards, so the property chains over any
sequence of calls. -/
theorem C7_effective_width_monotone (ct : Table) (fields : List Cell) (t2 : Table)
    (h : AddRow ct fields = .ok t2) (i : Nat) (c c2 : Column)
    (h1 : ct.Columns.get? i = some c) (h2 : t2.Columns.get? i = some c2)
    (hc : ColInv c) :
    c.maxLength ≤ c2.maxLength ∧
      (c.truncationRequired = true → c2.truncationRequired = true) ∧
      effWidth c ≤ effWidth c2 ∧ ColInv c2 := by
  have hF := widthLoop_done_rel fields ct.Columns t2.Columns (addRow_ok_inv h).1
  have hs := forall₂_get?_rel hF h1 h2
  exact ⟨hs.1, hs.2.1, (hs.2.2 hc).1, (hs.2.2 hc).2⟩

/-- One fresh column, input of the C7 witness call. -/
def tblC7 : Table := NewTable [NewColumn "A" 0]

/-- The column of `tblC7` after observing the value "abc". -/
def colC7b : Column :=
  { Name := "A", truncateAt := 0, Justification := "left",
    truncationRequired := false, maxLength := 3 }

/-- The table state after adding the row `("abc")` to `tblC7`. -/
def tblC7r : Table :=
  { Columns := [colC7b], ColumnCount := 1, Rows := [[Cell.str "abc"]], RowCount := 0 }

/-- Witness for C7_effective_width_monotone: adding "abc" to a fresh
one-column table moves the column from width 1 to width 3. -/
theorem C7_effective_width_witness :
    (NewColumn "A" 0).maxLength ≤ colC7b.maxLength ∧
      ((NewColumn "A" 0).truncationRequired = true → colC7b.truncationRequired = true) ∧
      effWidth (NewColumn "A" 0) ≤ effWidth colC7b ∧ ColInv colC7b :=
  C7_effective_width_monotone tblC7 [Cell.str "abc"] tblC7r (by decide) 0
    (NewColumn "A" 0) colC7b (by decide) (by decide) (by decide)

/-- C8: rendering is a pure read.  The table state after a Display call is
the input state (the method body assigns to no field of the table), and a
second Display call on that state with the same flag returns the same line
sequence. -/
theorem C8_display_pure_idempotent (ct : Table) (b : Bool) :
    (DisplayRun ct b).2 = ct ∧
      (DisplayRun ((DisplayRun ct b).2) b).1 = (DisplayRun ct b).1 :=
  ⟨rfl, rfl⟩

/-- C9: the public RowCount field is initialized to 0 by NewTable and is
never assigned by AddRow — every normal or fatal outcome carries the caller
state's RowCount unchanged — so it stays 0 and never reflects the number of
stored physical rows. -/
theorem C9_rowCount_stays_zero :
    (∀ cols : List Column, (NewTable cols).RowCount = 0) ∧
      (∀ (ct : Table) (fields : List Cell) (t2 : Table),
        AddRow ct fields = .ok t2 ∨ AddRow ct fields = .fatal t2 →
        t2.RowCount = ct.RowCount) := by
  constructor
  · intro cols
    rfl
  · intro ct fields t2 h
    rcases h with h | h
    · exact (addRow_ok_inv h).2.1
    · exact (addRow_fatal_inv h).2.1

/-- Witness for C9_rowCount_stays_zero: after adding a row to a fresh
one-column table the RowCount is still that of the fresh table, i.e. 0. -/
theorem C9_rowCount_witness :
    (NewTable [NewColumn "A" 0]).RowCount = 0 ∧ tblC7r.RowCount = tblC7.RowCount :=
  ⟨C9_rowCount_stays_zero.1 _,
    C9_rowCount_stays_zero.2 tblC7 [Cell.str "abc"] tblC7r (Or.inl (by decide))⟩

/-- C10: for EVERY column — truncating or not — a rendered field is
left-justified exactly when the column's Justification string equals "left"
verbatim; any other string — "Left", "LEFT", "center", "" — selects the
right-justified format (padding spaces precede the content).  `line0` is the
field's content after the truncation step (the verbatim value, or the
byte-clipped value plus "..."), and the pad fills it to the field display
width; the hypothesis only says the field renders at all (in Go, `truncData`
is `none` solely for a slice-bounds panic, where nothing is rendered). -/
theorem C10_left_justified_iff_exact (col : Column) (s : GoStr) (line0 : GoLine)
    (h : truncData col s = some line0) :
    (col.Justification = "left" →
      renderCell col (Cell.str s) =
        some (line0 ++ List.replicate (fieldWidth col - line0.length) (GoUnit.ch ' '))) ∧
    (col.Justification ≠ "left" →
      renderCell col (Cell.str s) =
        some (List.replicate (fieldWidth col - line0.length) (GoUnit.ch ' ') ++ line0)) := by
  constructor
  · intro hj
    have hb : (col.Justification == "left") = true := by
      rw [hj]
      exact beq_self_eq_true _
    rw [renderCell_str, h]
    unfold padFmt
    simp [hb]
  · intro hj
    have hb : (col.Justification == "left") = false := beq_eq_false_iff_ne.2 hj
    rw [renderCell_str, h]
    unfold padFmt
    simp [hb]

/-- A column with truncation already active (threshold 2 forced by the name
"abcd") whose Justification was set to "Left" (capital L): not the exact
string "left", hence right-justified. -/
def colC10 : Column :=
  { Name := "abcd", truncateAt := 2, Justification := "Left",
    truncationRequired := true, maxLength := 4 }

/-- Witness for C10_left_justified_iff_exact on a truncating column:
Justification "Left" renders the short value "a" right-justified (four pad
spaces before "a", filling the width threshold + 3 = 5). -/
theorem C10_left_justified_witness :
    renderCell colC10 (Cell.str "a") =
      some (List.replicate (fieldWidth colC10 - (ofStr "a").length) (GoUnit.ch ' ') ++ ofStr "a") :=
  (C10_left_justified_iff_exact colC10 "a" (ofStr "a") (by decide)).2 (by decide)

end CTable
